import Mathlib

/-! Shallow embedding of the pointer-interaction controller of QTads
(`src/dispwidget.cc`, class `DisplayWidget`).  The external collaborators
(formatter / layout oracle, Qt cursor and status bar, settings, the game
window's command consumer) are modelled as an explicit environment record
and observable fields threaded through a state record.  Machine pointers
to `CHtmlDispLink` objects are modelled as `Option LinkId` references, and
the per-link visual state written through `set_clicked` is a total map
`LinkId → LinkMode`. -/

set_option linter.unnecessarySeqFocus false

/-- Pixel position, as in `QPoint` (integer coordinates). -/
abbrev Pos := Int × Int

/-- Identity of a link object owned by the layout engine. -/
abbrev LinkId := Nat

/-- Visual mode of a link: mirrors `CHtmlDispLink_none`, `CHtmlDispLink_hover`,
`CHtmlDispLink_clicked`, the third argument of `set_clicked`. -/
inductive LinkMode
| none
| hover
| clicked
deriving DecidableEq

/-- Mouse cursor shape: default arrow (after `unsetCursor`) or
`Qt::PointingHandCursor` (after `setCursor`). -/
inductive Cursor
| default
| pointingHand
deriving DecidableEq

/-- Attributes of a link object: `href_.get_url()`, `get_append()`,
`get_noenter()`, `is_clickable_link()`. -/
structure LinkInfo where
  url : String
  append : Bool
  noenter : Bool
  clickable : Bool
deriving DecidableEq

/-- A display object as seen by the controller: its ALT text
(`get_alt_text()`, empty string standing for absent or empty) and the link
returned by `get_link` at the queried position. -/
structure DispObj where
  altText : String
  link : Option LinkId
deriving DecidableEq

/-- The two configuration flags read at decision points. -/
structure Settings where
  enableLinks : Bool
  highlightLinks : Bool
deriving DecidableEq

/-- The environment: the layout oracle (`find_by_pos`, `get_link`,
`find_textofs_by_pos`, `get_text_ofs_max`), the settings, and the global
cursor position used when the supplied mouse position is null. -/
structure Env where
  findByPos : Pos → Option DispObj
  linkInfo : LinkId → LinkInfo
  textOfsByPos : Pos → Nat
  textOfsMax : Nat
  settings : Settings
  globalPos : Pos

/-- One `processCommand` call: the command text, the append flag and the
enter flag (the code passes `not get_noenter()` as the enter argument). -/
structure Command where
  cmd : String
  append : Bool
  enter : Bool
deriving DecidableEq

/-- Controller state: the widget's fields (`fHoverLink`, `fClickedLink`,
`fInSelectMode`, `fSelectOrigin`) together with the observable effects on
the collaborators: per-link visual modes, cursor shape, status bar text
(`""` meaning cleared), the last selection range pushed to the formatter,
the list of dispatched commands (most recent first), and whether the
primary button is currently held down. -/
@[ext]
structure DW where
  fHoverLink : Option LinkId
  fClickedLink : Option LinkId
  fInSelectMode : Bool
  fSelectOrigin : Pos
  linkMode : LinkId → LinkMode
  cursor : Cursor
  status : String
  selRange : Option (Nat × Nat)
  dispatched : List Command
  leftDown : Bool

/-- The state right after construction: null link pointers, not selecting,
no visual mode set anywhere, default cursor, empty status bar. -/
def initDW : DW where
  fHoverLink := none
  fClickedLink := none
  fInSelectMode := false
  fSelectOrigin := (0, 0)
  linkMode := fun _ => LinkMode.none
  cursor := Cursor.default
  status := ""
  selRange := none
  dispatched := []
  leftDown := false

/-- `link->set_clicked(parentSysWin, m)`: record visual mode `m` for link `l`. -/
def setClicked (s : DW) (l : LinkId) (m : LinkMode) : DW :=
  { s with linkMode := Function.update s.linkMode l m }

/-- `DisplayWidget::fInvalidateLinkTracking`: forget the click-tracked and
hover-tracked links (reverting their visual modes to none), reset the
cursor and clear the status bar. -/
def fInvalidateLinkTracking (s : DW) : DW :=
  let s1 :=
    match s.fClickedLink with
    | some c => { setClicked s c LinkMode.none with fClickedLink := none }
    | none => s
  let s2 :=
    match s1.fHoverLink with
    | some h => { setClicked s1 h LinkMode.none with fHoverLink := none }
    | none => s1
  { s2 with cursor := Cursor.default, status := "" }

/-- The `disp == 0` branch of `updateLinkTracking` (lines 180-191): if a
hover was being tracked, revert it, reset cursor and clear status;
otherwise do nothing at all. -/
def trackNone (s : DW) : DW :=
  match s.fHoverLink with
  | some h =>
      { setClicked s h LinkMode.none with
        fHoverLink := none, cursor := Cursor.default, status := "" }
  | none => s

/-- The fall-through tail of `updateLinkTracking` (lines 242-249): clear
the status bar, reset the cursor, and forget any tracked hover link. -/
def trackClear (s : DW) : DW :=
  match s.fHoverLink with
  | some h =>
      { setClicked s h LinkMode.none with
        fHoverLink := none, cursor := Cursor.default, status := "" }
  | none => { s with cursor := Cursor.default, status := "" }

/-- Resolution of the mouse position (lines 168-176): a null `QPoint`
means "map the current global cursor position". -/
def resolvePos (env : Env) (mousePos : Pos) : Pos :=
  if mousePos = ((0 : Int), (0 : Int)) then env.globalPos else mousePos

/-- Lines 204-220 of `updateLinkTracking`: forget the previous hover
(reverting its visual mode), record `lnk` as the hovered link, and when it
is clickable set the pointing-hand cursor and, if highlighting is enabled
and no link is click-tracked, its hover visual mode. -/
def hoverSwap (env : Env) (s : DW) (lnk : Option LinkId) : DW :=
  let s1 :=
    match s.fHoverLink with
    | some h => setClicked s h LinkMode.none
    | none => s
  let s2 := { s1 with fHoverLink := lnk }
  match lnk with
  | some l =>
    if (env.linkInfo l).clickable then
      if env.settings.highlightLinks ∧ s.fClickedLink = none then
        setClicked { s2 with cursor := Cursor.pointingHand } l LinkMode.hover
      else { s2 with cursor := Cursor.pointingHand }
    else s2
  | none => s2

/-- `DisplayWidget::updateLinkTracking`. -/
def updateLinkTracking (env : Env) (s : DW) (mousePos : Pos) : DW :=
  match env.findByPos (resolvePos env mousePos) with
  | none => trackNone s
  | some disp =>
    if env.settings.enableLinks then
      if disp.link = s.fHoverLink then s
      else
        let s3 := hoverSwap env s disp.link
        if disp.altText ≠ "" then { s3 with status := disp.altText }
        else
          match disp.link with
          | some l =>
            if (env.linkInfo l).clickable then
              { s3 with status := (env.linkInfo l).url }
            else trackClear s3
          | none => trackClear s3
    else trackClear s

/-- `DisplayWidget::mouseMoveEvent`: while the primary button is down and
selection mode is active, push the updated selection range to the
formatter; otherwise refresh link tracking at the event position. -/
def mouseMoveEvent (env : Env) (s : DW) (p : Pos) : DW :=
  if s.leftDown ∧ s.fInSelectMode then
    { s with selRange := some (env.textOfsByPos s.fSelectOrigin, env.textOfsByPos p) }
  else updateLinkTracking env s p

/-- `DisplayWidget::mousePressEvent` for a primary-button press (so the
`buttons() & LeftButton` test of line 111 is true): with no hovered link
and not already selecting, enter selection mode anchored at the press
position and push the empty range `(max, max)`; with a hovered link that
is clickable while link following is enabled, arm it. -/
def mousePressEvent (env : Env) (s : DW) (p : Pos) : DW :=
  match s.fHoverLink with
  | none =>
    if ¬ s.fInSelectMode then
      { s with fInSelectMode := true, fSelectOrigin := p,
               selRange := some (env.textOfsMax, env.textOfsMax) }
    else s
  | some h =>
    if (env.linkInfo h).clickable ∧ env.settings.enableLinks then
      { setClicked s h LinkMode.clicked with fClickedLink := some h }
    else s

/-- `DisplayWidget::mouseReleaseEvent`. -/
def mouseReleaseEvent (env : Env) (s : DW) : DW :=
  if s.fInSelectMode then { s with fInSelectMode := false }
  else
    match s.fClickedLink with
    | none => s
    | some c =>
      if s.fHoverLink = some c then
        let info := env.linkInfo c
        let s1 := { s with dispatched :=
          { cmd := info.url, append := info.append, enter := ¬ info.noenter } :: s.dispatched }
        let s2 :=
          if env.settings.highlightLinks then setClicked s1 c LinkMode.hover else s1
        { s2 with fClickedLink := none }
      else
        match s.fHoverLink with
        | some h => { setClicked s h LinkMode.hover with fClickedLink := none }
        | none => { s with fClickedLink := none }

/-- Pointer events delivered by the host windowing layer; `press` and
`release` concern the primary button. -/
inductive Ev
| move (p : Pos)
| press (p : Pos)
| release
| leave

/-- One event step.  The primary-button state is threaded through
`leftDown`: a press is only delivered while the button is up and a release
only while it is down, as the hardware guarantees. -/
def step (env : Env) (s : DW) : Ev → DW
| Ev.move p => mouseMoveEvent env s p
| Ev.press p => if s.leftDown then s else { mousePressEvent env s p with leftDown := true }
| Ev.release => if s.leftDown then { mouseReleaseEvent env s with leftDown := false } else s
| Ev.leave => fInvalidateLinkTracking s

/-- Run a list of events from a state. -/
def run (env : Env) (s : DW) : List Ev → DW
| [] => s
| e :: es => run env (step env s e) es

/-- States reachable from the initial state by pointer events. -/
inductive Reachable (env : Env) : DW → Prop
| init : Reachable env initDW
| step {s : DW} (e : Ev) : Reachable env s → Reachable env (step env s e)

/-- A concrete layout and settings pair, used to evaluate the theorems on
explicit inputs: link 0 ("go north") at (1,1), link 1 ("examine sign",
append and noenter set) at (2,2), an ALT-text-only object at (3,3), a
plain object at (4,4), empty space elsewhere. -/
def testEnv (enable highlight : Bool) : Env where
  findByPos := fun p =>
    if p = ((1 : Int), (1 : Int)) then some { altText := "", link := some 0 }
    else if p = ((2 : Int), (2 : Int)) then some { altText := "", link := some 1 }
    else if p = ((3 : Int), (3 : Int)) then some { altText := "map of the town", link := none }
    else if p = ((4 : Int), (4 : Int)) then some { altText := "", link := none }
    else none
  linkInfo := fun l =>
    if l = 0 then { url := "go north", append := false, noenter := false, clickable := true }
    else { url := "examine sign", append := true, noenter := true, clickable := true }
  textOfsByPos := fun p => p.1.natAbs + 10 * p.2.natAbs
  textOfsMax := 100
  settings := { enableLinks := enable, highlightLinks := highlight }
  globalPos := (5, 5)

/-- The link resolved by the layout oracle for a pointer position, after
null-position resolution: `find_by_pos` followed by `get_link`. -/
def linkAtPos (env : Env) (p : Pos) : Option LinkId :=
  match env.findByPos (resolvePos env p) with
  | some disp => disp.link
  | none => none

/-- Every link whose visual mode is not `none` is the hover-tracked link.
This is the central shape invariant of the controller: `set_clicked` with
a mode other than `none` is only ever applied to `fHoverLink`. -/
def ModeRef (s : DW) : Prop :=
  ∀ l, s.linkMode l ≠ LinkMode.none → s.fHoverLink = some l

/-- All link visual modes are `none`. -/
def AllNone (s : DW) : Prop :=
  ∀ l, s.linkMode l = LinkMode.none

/-- The reachability invariant: the shape invariant on visual modes,
click-tracking only while the primary button is down, and selection mode
excluding link tracking. -/
def CtrlInv (s : DW) : Prop :=
  ModeRef s ∧
  (s.fClickedLink ≠ none → s.leftDown = true) ∧
  (s.fInSelectMode = true → s.fHoverLink = none ∧ s.fClickedLink = none ∧ s.leftDown = true)

/-- Pointwise description of `setClicked` on the mode map. -/
theorem setClicked_linkMode (s : DW) (l : LinkId) (m : LinkMode) (x : LinkId) :
    (setClicked s l m).linkMode x = if x = l then m else s.linkMode x := by
  simp [setClicked, Function.update_apply]

/-- The controller-core fields that the link-tracking refresh never
touches: click tracking, selection state, the selection range, the command
log and the button state. -/
def SameCore (s t : DW) : Prop :=
  t.fClickedLink = s.fClickedLink ∧
  t.fInSelectMode = s.fInSelectMode ∧
  t.fSelectOrigin = s.fSelectOrigin ∧
  t.selRange = s.selRange ∧
  t.dispatched = s.dispatched ∧
  t.leftDown = s.leftDown

theorem sameCore_refl (s : DW) : SameCore s s :=
  ⟨rfl, rfl, rfl, rfl, rfl, rfl⟩

theorem sameCore_trans {s t u : DW} (h1 : SameCore s t) (h2 : SameCore t u) : SameCore s u :=
  ⟨h2.1.trans h1.1, h2.2.1.trans h1.2.1, h2.2.2.1.trans h1.2.2.1,
   h2.2.2.2.1.trans h1.2.2.2.1, h2.2.2.2.2.1.trans h1.2.2.2.2.1,
   h2.2.2.2.2.2.trans h1.2.2.2.2.2⟩

theorem trackNone_core (s : DW) : SameCore s (trackNone s) := by
  unfold trackNone setClicked
  rcases hh : s.fHoverLink with _ | h
  · exact ⟨rfl, rfl, rfl, rfl, rfl, rfl⟩
  · exact ⟨rfl, rfl, rfl, rfl, rfl, rfl⟩

theorem trackNone_fHoverLink (s : DW) : (trackNone s).fHoverLink = none ∨ trackNone s = s := by
  unfold trackNone setClicked
  rcases hh : s.fHoverLink with _ | h
  · exact Or.inr rfl
  · exact Or.inl rfl

theorem trackClear_core (s : DW) : SameCore s (trackClear s) := by
  unfold trackClear setClicked
  rcases hh : s.fHoverLink with _ | h
  · exact ⟨rfl, rfl, rfl, rfl, rfl, rfl⟩
  · exact ⟨rfl, rfl, rfl, rfl, rfl, rfl⟩

theorem trackClear_obs (s : DW) :
    (trackClear s).fHoverLink = none ∧ (trackClear s).cursor = Cursor.default ∧
    (trackClear s).status = "" := by
  unfold trackClear setClicked
  rcases hh : s.fHoverLink with _ | h
  · exact ⟨rfl, rfl, rfl⟩
  · exact ⟨rfl, rfl, rfl⟩

theorem hoverSwap_core (env : Env) (s : DW) (lnk : Option LinkId) :
    SameCore s (hoverSwap env s lnk) := by
  unfold hoverSwap setClicked
  rcases hh : s.fHoverLink with _ | h <;> rcases lnk with _ | l <;> dsimp only <;>
    first
      | exact ⟨rfl, rfl, rfl, rfl, rfl, rfl⟩
      | (split <;> [skip; exact ⟨rfl, rfl, rfl, rfl, rfl, rfl⟩] <;>
          split <;> exact ⟨rfl, rfl, rfl, rfl, rfl, rfl⟩)

theorem hoverSwap_fHoverLink (env : Env) (s : DW) (lnk : Option LinkId) :
    (hoverSwap env s lnk).fHoverLink = lnk := by
  unfold hoverSwap setClicked
  rcases hh : s.fHoverLink with _ | h <;> rcases lnk with _ | l <;> dsimp only <;>
    first
      | rfl
      | (split <;> [skip; rfl] <;> split <;> rfl)

theorem hoverSwap_status (env : Env) (s : DW) (lnk : Option LinkId) :
    (hoverSwap env s lnk).status = s.status := by
  unfold hoverSwap setClicked
  rcases hh : s.fHoverLink with _ | h <;> rcases lnk with _ | l <;> dsimp only <;>
    first
      | rfl
      | (split <;> [skip; rfl] <;> split <;> rfl)

theorem ult_core (env : Env) (s : DW) (p : Pos) :
    SameCore s (updateLinkTracking env s p) := by
  unfold updateLinkTracking
  rcases hd : env.findByPos (resolvePos env p) with _ | disp
  · exact trackNone_core s
  · dsimp only
    by_cases he : env.settings.enableLinks = true
    · rw [if_pos he]
      by_cases hl : disp.link = s.fHoverLink
      · rw [if_pos hl]
        exact sameCore_refl s
      · rw [if_neg hl]
        by_cases ha : disp.altText ≠ ""
        · rw [if_pos ha]
          exact hoverSwap_core env s disp.link
        · rw [if_neg ha]
          rcases hL : disp.link with _ | l
          · exact sameCore_trans (hoverSwap_core env s none) (trackClear_core _)
          · dsimp only
            by_cases hc : (env.linkInfo l).clickable = true
            · rw [if_pos hc]
              exact hoverSwap_core env s (some l)
            · rw [if_neg hc]
              exact sameCore_trans (hoverSwap_core env s (some l)) (trackClear_core _)
    · rw [if_neg he]
      exact trackClear_core s

theorem allNone_modeRef (s : DW) (h : AllNone s) : ModeRef s :=
  fun l hl => absurd (h l) hl

/-- With no hovered link, the shape invariant forces every mode to `none`. -/
theorem modeRef_hover_none (s : DW) (hM : ModeRef s) (hh : s.fHoverLink = none) :
    AllNone s := by
  intro x
  by_contra hne
  have hx := hM x hne
  rw [hh] at hx
  cases hx

/-- Clearing the hovered link's mode leaves every mode at `none`. -/
theorem modeRef_cleared (s : DW) (h : LinkId) (hM : ModeRef s) (hh : s.fHoverLink = some h)
    (x : LinkId) : Function.update s.linkMode h LinkMode.none x = LinkMode.none := by
  by_cases hx : x = h
  · subst hx
    exact Function.update_same x LinkMode.none s.linkMode
  · rw [Function.update_noteq hx]
    by_contra hne
    have hx2 := hM x hne
    rw [hh] at hx2
    exact hx (Option.some.inj hx2).symm

theorem trackNone_allNone (s : DW) (hM : ModeRef s) : AllNone (trackNone s) := by
  intro x
  unfold trackNone setClicked
  rcases hh : s.fHoverLink with _ | h
  · exact modeRef_hover_none s hM hh x
  · exact modeRef_cleared s h hM hh x

theorem trackClear_allNone (s : DW) (hM : ModeRef s) : AllNone (trackClear s) := by
  intro x
  unfold trackClear setClicked
  rcases hh : s.fHoverLink with _ | h
  · exact modeRef_hover_none s hM hh x
  · exact modeRef_cleared s h hM hh x

/-- After the hover swap every mode is `none`, except that the fresh link
may have been highlighted `hover`. -/
theorem hoverSwap_linkMode (env : Env) (s : DW) (lnk : Option LinkId) (hM : ModeRef s)
    (x : LinkId) :
    (hoverSwap env s lnk).linkMode x = LinkMode.none ∨
      (lnk = some x ∧ (hoverSwap env s lnk).linkMode x = LinkMode.hover) := by
  unfold hoverSwap setClicked
  rcases hh : s.fHoverLink with _ | h <;> rcases lnk with _ | l <;> dsimp only
  · exact Or.inl (modeRef_hover_none s hM hh x)
  · split
    · split
      · dsimp only
        by_cases hx : x = l
        · subst hx
          exact Or.inr ⟨rfl, Function.update_same x LinkMode.hover s.linkMode⟩
        · rw [Function.update_noteq hx]
          exact Or.inl (modeRef_hover_none s hM hh x)
      · exact Or.inl (modeRef_hover_none s hM hh x)
    · exact Or.inl (modeRef_hover_none s hM hh x)
  · exact Or.inl (modeRef_cleared s h hM hh x)
  · split
    · split
      · dsimp only
        by_cases hx : x = l
        · subst hx
          exact Or.inr ⟨rfl,
            Function.update_same x LinkMode.hover (Function.update s.linkMode h LinkMode.none)⟩
        · rw [Function.update_noteq hx]
          exact Or.inl (modeRef_cleared s h hM hh x)
      · exact Or.inl (modeRef_cleared s h hM hh x)
    · exact Or.inl (modeRef_cleared s h hM hh x)

theorem hoverSwap_modeRef (env : Env) (s : DW) (lnk : Option LinkId) (hM : ModeRef s) :
    ModeRef (hoverSwap env s lnk) := by
  intro x hx
  rcases hoverSwap_linkMode env s lnk hM x with h1 | ⟨h2, _⟩
  · exact absurd h1 hx
  · rw [hoverSwap_fHoverLink env s lnk, h2]

theorem ult_modeRef (env : Env) (s : DW) (p : Pos) (hM : ModeRef s) :
    ModeRef (updateLinkTracking env s p) := by
  unfold updateLinkTracking
  rcases hd : env.findByPos (resolvePos env p) with _ | disp
  · exact allNone_modeRef _ (trackNone_allNone s hM)
  · dsimp only
    by_cases he : env.settings.enableLinks = true
    · rw [if_pos he]
      by_cases hl : disp.link = s.fHoverLink
      · rw [if_pos hl]
        exact hM
      · rw [if_neg hl]
        by_cases ha : disp.altText ≠ ""
        · rw [if_pos ha]
          exact hoverSwap_modeRef env s disp.link hM
        · rw [if_neg ha]
          rcases hL : disp.link with _ | l
          · exact allNone_modeRef _
              (trackClear_allNone _ (hoverSwap_modeRef env s none hM))
          · dsimp only
            by_cases hc : (env.linkInfo l).clickable = true
            · rw [if_pos hc]
              exact hoverSwap_modeRef env s (some l) hM
            · rw [if_neg hc]
              exact allNone_modeRef _
                (trackClear_allNone _ (hoverSwap_modeRef env s (some l) hM))
    · rw [if_neg he]
      exact allNone_modeRef _ (trackClear_allNone s hM)

theorem fInvalidate_obs (s : DW) :
    (fInvalidateLinkTracking s).fHoverLink = none ∧
    (fInvalidateLinkTracking s).fClickedLink = none ∧
    (fInvalidateLinkTracking s).cursor = Cursor.default ∧
    (fInvalidateLinkTracking s).status = "" ∧
    (fInvalidateLinkTracking s).fInSelectMode = s.fInSelectMode ∧
    (fInvalidateLinkTracking s).fSelectOrigin = s.fSelectOrigin ∧
    (fInvalidateLinkTracking s).selRange = s.selRange ∧
    (fInvalidateLinkTracking s).dispatched = s.dispatched ∧
    (fInvalidateLinkTracking s).leftDown = s.leftDown := by
  unfold fInvalidateLinkTracking setClicked
  rcases hc : s.fClickedLink with _ | c <;> dsimp only <;>
    rcases hh : s.fHoverLink with _ | h <;> simp_all

theorem fInvalidate_allNone (s : DW) (hM : ModeRef s) :
    AllNone (fInvalidateLinkTracking s) := by
  intro x
  unfold fInvalidateLinkTracking setClicked
  rcases hc : s.fClickedLink with _ | c <;> dsimp only <;>
    rcases hh : s.fHoverLink with _ | h <;> dsimp only
  · exact modeRef_hover_none s hM hh x
  · exact modeRef_cleared s h hM hh x
  · by_cases hx : x = c
    · subst hx
      exact Function.update_same x LinkMode.none s.linkMode
    · rw [Function.update_noteq hx]
      exact modeRef_hover_none s hM hh x
  · by_cases hx : x = h
    · subst hx
      exact Function.update_same x LinkMode.none (Function.update s.linkMode c LinkMode.none)
    · rw [Function.update_noteq hx]
      by_cases hxc : x = c
      · subst hxc
        exact Function.update_same x LinkMode.none s.linkMode
      · rw [Function.update_noteq hxc]
        by_contra hne
        have hx2 := hM x hne
        rw [hh] at hx2
        exact hx (Option.some.inj hx2).symm

theorem ctrlInv_init : CtrlInv initDW :=
  ⟨fun _ hl => absurd rfl hl, fun hc => absurd rfl hc, fun hs => Bool.noConfusion hs⟩

theorem ctrlInv_move (env : Env) (s : DW) (h : CtrlInv s) (p : Pos) :
    CtrlInv (mouseMoveEvent env s p) := by
  obtain ⟨hM, hB, hC⟩ := h
  unfold mouseMoveEvent
  by_cases hsel : s.leftDown = true ∧ s.fInSelectMode = true
  · rw [if_pos hsel]
    exact ⟨hM, hB, hC⟩
  · rw [if_neg hsel]
    obtain ⟨c1, c2, _, _, _, c6⟩ := ult_core env s p
    refine ⟨ult_modeRef env s p hM, ?_, ?_⟩
    · intro hcl
      rw [c6]
      exact hB (by rwa [c1] at hcl)
    · intro hs
      have hs' : s.fInSelectMode = true := c2.symm.trans hs
      exact absurd ⟨(hC hs').2.2, hs'⟩ hsel

theorem ctrlInv_press (env : Env) (s : DW) (h : CtrlInv s) (p : Pos) :
    CtrlInv (step env s (Ev.press p)) := by
  show CtrlInv (if s.leftDown then s else { mousePressEvent env s p with leftDown := true })
  by_cases hld : s.leftDown = true
  · rw [if_pos hld]
    exact h
  · rw [if_neg hld]
    have hclicked : s.fClickedLink = none := by
      by_contra hc
      exact hld (h.2.1 hc)
    unfold mousePressEvent
    rcases hh : s.fHoverLink with _ | h0 <;> dsimp only
    · by_cases hsel : s.fInSelectMode = true
      · rw [if_neg (not_not_intro hsel)]
        exact ⟨h.1, fun _ => rfl, fun _ => ⟨hh, hclicked, rfl⟩⟩
      · rw [if_pos hsel]
        refine ⟨fun x hx => ?_, fun _ => rfl, fun _ => ⟨rfl, hclicked, rfl⟩⟩
        exact Option.noConfusion (hh.symm.trans (h.1 x hx))
    · by_cases hck : (env.linkInfo h0).clickable = true ∧ env.settings.enableLinks = true
      · rw [if_pos hck]
        refine ⟨?_, fun _ => rfl, ?_⟩
        · intro x hx
          by_cases hx0 : x = h0
          · subst hx0
            exact hh
          · have hxm : s.linkMode x ≠ LinkMode.none := by
              simpa [setClicked, Function.update_noteq hx0] using hx
            exact h.1 x hxm
        · intro hs
          have hs' : s.fInSelectMode = true := hs
          exact absurd (hh.symm.trans (h.2.2 hs').1) (by simp)
      · rw [if_neg hck]
        exact ⟨h.1, fun _ => rfl,
          fun hs => ⟨(h.2.2 hs).1, (h.2.2 hs).2.1, rfl⟩⟩

theorem ctrlInv_release (env : Env) (s : DW) (h : CtrlInv s) :
    CtrlInv (step env s Ev.release) := by
  show CtrlInv (if s.leftDown then { mouseReleaseEvent env s with leftDown := false } else s)
  by_cases hld : s.leftDown = true
  · rw [if_pos hld]
    unfold mouseReleaseEvent
    by_cases hsel : s.fInSelectMode = true
    · rw [if_pos hsel]
      exact ⟨h.1, fun hc => absurd (h.2.2 hsel).2.1 hc, fun hs => Bool.noConfusion hs⟩
    · rw [if_neg hsel]
      rcases hcl : s.fClickedLink with _ | c <;> dsimp only
      · exact ⟨fun x hx => h.1 x hx, fun hc => absurd hcl hc, fun hs => absurd hs hsel⟩
      · by_cases hhc : s.fHoverLink = some c
        · rw [if_pos hhc]
          by_cases hhl : env.settings.highlightLinks = true
          · rw [if_pos hhl]
            refine ⟨?_, fun hc => absurd rfl hc, fun hs => absurd hs hsel⟩
            intro x hx
            by_cases hxc : x = c
            · subst hxc
              exact hhc
            · have hxm : s.linkMode x ≠ LinkMode.none := by
                simpa [setClicked, Function.update_noteq hxc] using hx
              exact h.1 x hxm
          · rw [if_neg hhl]
            exact ⟨fun x hx => h.1 x hx, fun hc => absurd rfl hc, fun hs => absurd hs hsel⟩
        · rw [if_neg hhc]
          rcases hh : s.fHoverLink with _ | h1 <;> dsimp only
          · exact ⟨fun x hx => Option.noConfusion (hh.symm.trans (h.1 x hx)),
              fun hc => absurd rfl hc, fun hs => absurd hs hsel⟩
          · refine ⟨?_, fun hc => absurd rfl hc, fun hs => absurd hs hsel⟩
            intro x hx
            by_cases hx1 : x = h1
            · subst hx1
              exact hh
            · have hxm : s.linkMode x ≠ LinkMode.none := by
                simpa [setClicked, Function.update_noteq hx1] using hx
              exact h.1 x hxm
  · rw [if_neg hld]
    exact h

theorem ctrlInv_leave (s : DW) (h : CtrlInv s) :
    CtrlInv (fInvalidateLinkTracking s) := by
  obtain ⟨o1, o2, _, _, o5, _, _, _, o9⟩ := fInvalidate_obs s
  refine ⟨allNone_modeRef _ (fInvalidate_allNone s h.1), fun hc => absurd o2 hc, ?_⟩
  intro hs
  have hs' : s.fInSelectMode = true := o5.symm.trans hs
  exact ⟨o1, o2, o9.trans ((h.2.2 hs').2.2)⟩

theorem ctrlInv_step (env : Env) (s : DW) (h : CtrlInv s) (e : Ev) :
    CtrlInv (step env s e) := by
  cases e with
  | move p => exact ctrlInv_move env s h p
  | press p => exact ctrlInv_press env s h p
  | release => exact ctrlInv_release env s h
  | leave => exact ctrlInv_leave s h

/-- Every reachable controller state satisfies the invariant. -/
theorem ctrlInv_reachable (env : Env) (s : DW) (h : Reachable env s) : CtrlInv s := by
  induction h with
  | init => exact ctrlInv_init
  | step e _ ih => exact ctrlInv_step env _ ih e

theorem trackNone_fHoverLink_none (s : DW) : (trackNone s).fHoverLink = none := by
  unfold trackNone setClicked
  rcases hh : s.fHoverLink with _ | h
  · exact hh
  · rfl

theorem trackNone_of_none (t : DW) (h : t.fHoverLink = none) : trackNone t = t := by
  unfold trackNone
  rw [h]

theorem record_clear_id (t : DW) (hc : t.cursor = Cursor.default) (hs : t.status = "") :
    ({ t with cursor := Cursor.default, status := "" } : DW) = t := by
  cases t
  simp_all

theorem trackClear_of_clean (t : DW) (h : t.fHoverLink = none) (hc : t.cursor = Cursor.default)
    (hs : t.status = "") : trackClear t = t := by
  unfold trackClear
  rw [h]
  dsimp only
  cases t
  simp_all

theorem trackClear_of_some (t : DW) (x : LinkId) (h : t.fHoverLink = some x) :
    trackClear t =
      { t with
        linkMode := Function.update t.linkMode x LinkMode.none,
        fHoverLink := none, cursor := Cursor.default, status := "" } := by
  unfold trackClear setClicked
  rw [h]

theorem hoverSwap_not_clickable (env : Env) (t : DW) (l : LinkId) (h : t.fHoverLink = none)
    (hc : ¬ (env.linkInfo l).clickable = true) :
    hoverSwap env t (some l) = { t with fHoverLink := some l } := by
  unfold hoverSwap
  rw [h]
  dsimp only
  rw [if_neg hc]

theorem fInvalidate_of_cleared (t : DW) (h1 : t.fClickedLink = none) (h2 : t.fHoverLink = none) :
    fInvalidateLinkTracking t = { t with cursor := Cursor.default, status := "" } := by
  unfold fInvalidateLinkTracking
  rw [h1]
  dsimp only
  rw [h2]
  dsimp only
  cases t
  simp_all

/-- Branch equation: no display object at the position. -/
theorem ult_eq_none (env : Env) (s : DW) (p : Pos)
    (hd : env.findByPos (resolvePos env p) = none) :
    updateLinkTracking env s p = trackNone s := by
  unfold updateLinkTracking
  rw [hd]

/-- Branch equation: link following disabled. -/
theorem ult_eq_disabled (env : Env) (s : DW) (p : Pos) (disp : DispObj)
    (hd : env.findByPos (resolvePos env p) = some disp)
    (he : ¬ env.settings.enableLinks = true) :
    updateLinkTracking env s p = trackClear s := by
  unfold updateLinkTracking
  rw [hd]
  dsimp only
  rw [if_neg he]

/-- Branch equation: the resolved link equals the tracked hover. -/
theorem ult_eq_same (env : Env) (s : DW) (p : Pos) (disp : DispObj)
    (hd : env.findByPos (resolvePos env p) = some disp)
    (he : env.settings.enableLinks = true) (hl : disp.link = s.fHoverLink) :
    updateLinkTracking env s p = s := by
  unfold updateLinkTracking
  rw [hd]
  dsimp only
  rw [if_pos he, if_pos hl]

/-- Branch equation: new link, object with ALT text. -/
theorem ult_eq_alt (env : Env) (s : DW) (p : Pos) (disp : DispObj)
    (hd : env.findByPos (resolvePos env p) = some disp)
    (he : env.settings.enableLinks = true) (hl : ¬ disp.link = s.fHoverLink)
    (ha : disp.altText ≠ "") :
    updateLinkTracking env s p =
      { hoverSwap env s disp.link with status := disp.altText } := by
  unfold updateLinkTracking
  rw [hd]
  dsimp only
  rw [if_pos he, if_neg hl, if_pos ha]

/-- Branch equation: new clickable link, no ALT text. -/
theorem ult_eq_url (env : Env) (s : DW) (p : Pos) (disp : DispObj) (l : LinkId)
    (hd : env.findByPos (resolvePos env p) = some disp)
    (he : env.settings.enableLinks = true) (hl : ¬ disp.link = s.fHoverLink)
    (ha : disp.altText = "") (hL : disp.link = some l)
    (hc : (env.linkInfo l).clickable = true) :
    updateLinkTracking env s p =
      { hoverSwap env s disp.link with status := (env.linkInfo l).url } := by
  unfold updateLinkTracking
  rw [hd]
  dsimp only
  rw [if_pos he, if_neg hl, if_neg (not_not_intro ha)]
  rw [hL]
  dsimp only
  rw [if_pos hc]

/-- Branch equation: new non-clickable link, no ALT text. -/
theorem ult_eq_clear_some (env : Env) (s : DW) (p : Pos) (disp : DispObj) (l : LinkId)
    (hd : env.findByPos (resolvePos env p) = some disp)
    (he : env.settings.enableLinks = true) (hl : ¬ disp.link = s.fHoverLink)
    (ha : disp.altText = "") (hL : disp.link = some l)
    (hc : ¬ (env.linkInfo l).clickable = true) :
    updateLinkTracking env s p = trackClear (hoverSwap env s disp.link) := by
  unfold updateLinkTracking
  rw [hd]
  dsimp only
  rw [if_pos he, if_neg hl, if_neg (not_not_intro ha)]
  rw [hL]
  dsimp only
  rw [if_neg hc, ← hL]

/-- Branch equation: no link at the position, no ALT text. -/
theorem ult_eq_clear_none (env : Env) (s : DW) (p : Pos) (disp : DispObj)
    (hd : env.findByPos (resolvePos env p) = some disp)
    (he : env.settings.enableLinks = true) (hl : ¬ disp.link = s.fHoverLink)
    (ha : disp.altText = "") (hL : disp.link = none) :
    updateLinkTracking env s p = trackClear (hoverSwap env s disp.link) := by
  unfold updateLinkTracking
  rw [hd]
  dsimp only
  rw [if_pos he, if_neg hl, if_neg (not_not_intro ha)]
  rw [hL]

theorem trackClear_idem_aux (env : Env) (u : DW) (l : LinkId)
    (h1 : u.fHoverLink = none) (h2 : u.cursor = Cursor.default) (h3 : u.status = "")
    (h4 : u.linkMode l = LinkMode.none) (hc : ¬ (env.linkInfo l).clickable = true) :
    trackClear (hoverSwap env u (some l)) = u := by
  rw [hoverSwap_not_clickable env u l h1 hc]
  rw [trackClear_of_some _ l rfl]
  refine DW.ext ?_ ?_ ?_ ?_ ?_ ?_ ?_ ?_ ?_ ?_
  · exact h1.symm
  · rfl
  · rfl
  · rfl
  · show Function.update u.linkMode l LinkMode.none = u.linkMode
    rw [← h4]
    exact Function.update_eq_self l u.linkMode
  · exact h2.symm
  · exact h3.symm
  · rfl
  · rfl
  · rfl

/-- C8: `updateLinkTracking` is idempotent: running the refresh a second
time at the same position with no intervening event changes nothing at
all, and in particular performs no link-visual-mode mutations. -/
theorem C8_refresh_idempotent (env : Env) (s : DW) (p : Pos) :
    updateLinkTracking env (updateLinkTracking env s p) p = updateLinkTracking env s p := by
  rcases hd : env.findByPos (resolvePos env p) with _ | disp
  · rw [ult_eq_none env s p hd, ult_eq_none env (trackNone s) p hd]
    exact trackNone_of_none _ (trackNone_fHoverLink_none s)
  · by_cases he : env.settings.enableLinks = true
    · by_cases hl : disp.link = s.fHoverLink
      · rw [ult_eq_same env s p disp hd he hl]
        exact ult_eq_same env s p disp hd he hl
      · by_cases ha : disp.altText ≠ ""
        · rw [ult_eq_alt env s p disp hd he hl ha]
          exact ult_eq_same env _ p disp hd he
            (hoverSwap_fHoverLink env s disp.link).symm
        · have ha' := not_not.mp ha
          rcases hL : disp.link with _ | l
          · rw [ult_eq_clear_none env s p disp hd he hl ha' hL, hL]
            refine ult_eq_same env _ p disp hd he ?_
            rw [(trackClear_obs _).1, hL]
          · by_cases hc : (env.linkInfo l).clickable = true
            · rw [ult_eq_url env s p disp l hd he hl ha' hL hc]
              exact ult_eq_same env _ p disp hd he
                (hoverSwap_fHoverLink env s disp.link).symm
            · rw [ult_eq_clear_some env s p disp l hd he hl ha' hL hc, hL]
              have hm : (hoverSwap env s (some l)).fHoverLink = some l :=
                hoverSwap_fHoverLink env s (some l)
              have hu1 := (trackClear_obs (hoverSwap env s (some l))).1
              have hu2 := (trackClear_obs (hoverSwap env s (some l))).2.1
              have hu3 := (trackClear_obs (hoverSwap env s (some l))).2.2
              have h4 : (trackClear (hoverSwap env s (some l))).linkMode l = LinkMode.none := by
                rw [trackClear_of_some _ l hm]
                exact Function.update_same _ _ _
              have hl2 : ¬ disp.link = (trackClear (hoverSwap env s (some l))).fHoverLink := by
                rw [hu1, hL]
                simp
              rw [ult_eq_clear_some env (trackClear (hoverSwap env s (some l))) p disp l
                hd he hl2 ha' hL hc, hL]
              exact trackClear_idem_aux env _ l hu1 hu2 hu3 h4 hc
    · rw [ult_eq_disabled env s p disp hd he, ult_eq_disabled env (trackClear s) p disp hd he]
      exact trackClear_of_clean _ (trackClear_obs s).1 (trackClear_obs s).2.1
        (trackClear_obs s).2.2

theorem bool_false_ne_true {b : Bool} (h : b = false) : ¬ b = true := by
  rw [h]
  exact fun hx => Bool.noConfusion hx

theorem trackClear_of_none (t : DW) (h : t.fHoverLink = none) :
    trackClear t = { t with cursor := Cursor.default, status := "" } := by
  unfold trackClear
  rw [h]

theorem hoverSwap_none_of_some (env : Env) (t : DW) (h : LinkId) (hh : t.fHoverLink = some h) :
    hoverSwap env t none = { setClicked t h LinkMode.none with fHoverLink := none } := by
  unfold hoverSwap
  rw [hh]

theorem hoverSwap_cursor_none (env : Env) (t : DW) :
    (hoverSwap env t none).cursor = t.cursor := by
  unfold hoverSwap setClicked
  rcases hh : t.fHoverLink with _ | h
  · rfl
  · rfl

/-- Moving onto a clickable link while click-tracking another link sets
the hand cursor and the hover reference but suppresses highlighting. -/
theorem hoverSwap_clickable_armed (env : Env) (t : DW) (l : LinkId) (hh : t.fHoverLink = none)
    (hc : (env.linkInfo l).clickable = true) (ha : t.fClickedLink ≠ none) :
    hoverSwap env t (some l) = { t with fHoverLink := some l, cursor := Cursor.pointingHand } := by
  unfold hoverSwap
  rw [hh]
  dsimp only
  rw [if_pos hc, if_neg (fun hx => ha hx.2)]

/-- The hover swap touches no link other than the freshly resolved one
when no hover was tracked. -/
theorem hoverSwap_linkMode_other (env : Env) (t : DW) (lnk : Option LinkId) (x : LinkId)
    (h1 : t.fHoverLink = none) (hx : lnk ≠ some x) :
    (hoverSwap env t lnk).linkMode x = t.linkMode x := by
  unfold hoverSwap setClicked
  rw [h1]
  dsimp only
  rcases lnk with _ | l
  · rfl
  · dsimp only
    split
    · split
      · have hxl : x ≠ l := fun hxe => hx (by rw [hxe])
        exact Function.update_noteq hxl _ _
      · rfl
    · rfl

/-- A move event with the button up or outside selection mode is a pure
link-tracking refresh. -/
theorem move_updates (env : Env) (t : DW) (p : Pos)
    (hs : ¬ (t.leftDown = true ∧ t.fInSelectMode = true)) :
    step env t (Ev.move p) = updateLinkTracking env t p := by
  show mouseMoveEvent env t p = _
  unfold mouseMoveEvent
  rw [if_neg hs]

/-- A primary press while hovering a clickable link (links enabled) arms
it: visual mode `clicked`, armed reference set. -/
theorem press_arms (env : Env) (s : DW) (a : LinkId) (p : Pos)
    (hh : s.fHoverLink = some a) (hld : s.leftDown = false)
    (hca : (env.linkInfo a).clickable = true) (he : env.settings.enableLinks = true) :
    step env s (Ev.press p) =
      { setClicked s a LinkMode.clicked with fClickedLink := some a, leftDown := true } := by
  show (if s.leftDown then s else { mousePressEvent env s p with leftDown := true }) = _
  rw [if_neg (bool_false_ne_true hld)]
  unfold mousePressEvent
  rw [hh]
  dsimp only
  rw [if_pos ⟨hca, he⟩]

/-- Release while the armed link is still the hovered link: the command is
dispatched once; the mode reverts to `hover` only when highlighting is on,
and is left untouched when it is off; the armed reference is cleared and
no other link's mode changes. -/
theorem release_hover_armed (env : Env) (t : DW) (c : LinkId)
    (hld : t.leftDown = true) (hsel : t.fInSelectMode = false)
    (hcl : t.fClickedLink = some c) (hh : t.fHoverLink = some c) :
    (step env t Ev.release).dispatched =
      { cmd := (env.linkInfo c).url, append := (env.linkInfo c).append,
        enter := ¬ (env.linkInfo c).noenter } :: t.dispatched ∧
    (env.settings.highlightLinks = true →
      (step env t Ev.release).linkMode c = LinkMode.hover) ∧
    (env.settings.highlightLinks = false →
      (step env t Ev.release).linkMode c = t.linkMode c) ∧
    (step env t Ev.release).fClickedLink = none ∧
    (∀ x, x ≠ c → (step env t Ev.release).linkMode x = t.linkMode x) ∧
    (step env t Ev.release).fHoverLink = t.fHoverLink := by
  have hstep : step env t Ev.release = { mouseReleaseEvent env t with leftDown := false } := by
    show (if t.leftDown then { mouseReleaseEvent env t with leftDown := false } else t) = _
    rw [if_pos hld]
  rw [hstep]
  unfold mouseReleaseEvent
  rw [if_neg (bool_false_ne_true hsel), hcl]
  dsimp only
  rw [if_pos hh]
  refine ⟨?_, ?_, ?_, ?_, ?_, ?_⟩
  · by_cases hhl : env.settings.highlightLinks = true
    · rw [if_pos hhl]
      rfl
    · rw [if_neg hhl]
  · intro hhl
    rw [if_pos hhl]
    exact Function.update_same _ _ _
  · intro hhl
    rw [if_neg (bool_false_ne_true hhl)]
  · by_cases hhl : env.settings.highlightLinks = true
    · rw [if_pos hhl]
    · rw [if_neg hhl]
  · intro x hx
    by_cases hhl : env.settings.highlightLinks = true
    · rw [if_pos hhl]
      exact Function.update_noteq hx _ _
    · rw [if_neg hhl]
  · by_cases hhl : env.settings.highlightLinks = true
    · rw [if_pos hhl]
      rfl
    · rw [if_neg hhl]

/-- Release while a different link is hovered than the armed one: no
dispatch, the hovered link goes to `hover` mode, the armed reference is
cleared. -/
theorem release_hover_other (env : Env) (t : DW) (c b : LinkId)
    (hld : t.leftDown = true) (hsel : t.fInSelectMode = false)
    (hcl : t.fClickedLink = some c) (hh : t.fHoverLink = some b) (hbc : b ≠ c) :
    step env t Ev.release =
      { setClicked t b LinkMode.hover with fClickedLink := none, leftDown := false } := by
  show (if t.leftDown then { mouseReleaseEvent env t with leftDown := false } else t) = _
  rw [if_pos hld]
  unfold mouseReleaseEvent
  rw [if_neg (bool_false_ne_true hsel), hcl]
  dsimp only
  rw [if_neg (by rw [hh]; exact fun hx => hbc (Option.some.inj hx)), hh]

/-- From a state holding no link references and no set visual mode, a
single event can only change the visual mode of the link freshly resolved
by the layout oracle at a move position: stale state cannot resurface. -/
theorem step_fresh_only (env : Env) (t : DW) (h1 : t.fHoverLink = none)
    (h2 : t.fClickedLink = none) (e : Ev) (l : LinkId)
    (hne : (step env t e).linkMode l ≠ t.linkMode l) :
    ∃ p, e = Ev.move p ∧ linkAtPos env p = some l := by
  cases e with
  | press p =>
    exfalso
    apply hne
    show (if t.leftDown then t else { mousePressEvent env t p with leftDown := true }).linkMode l
      = t.linkMode l
    by_cases hld : t.leftDown = true
    · rw [if_pos hld]
    · rw [if_neg hld]
      show (mousePressEvent env t p).linkMode l = t.linkMode l
      unfold mousePressEvent
      rw [h1]
      dsimp only
      split
      · rfl
      · rfl
  | release =>
    exfalso
    apply hne
    show (if t.leftDown then { mouseReleaseEvent env t with leftDown := false } else t).linkMode l
      = t.linkMode l
    by_cases hld : t.leftDown = true
    · rw [if_pos hld]
      show (mouseReleaseEvent env t).linkMode l = t.linkMode l
      unfold mouseReleaseEvent
      by_cases hsel : t.fInSelectMode = true
      · rw [if_pos hsel]
      · rw [if_neg hsel, h2]
    · rw [if_neg hld]
  | leave =>
    exfalso
    apply hne
    show (fInvalidateLinkTracking t).linkMode l = t.linkMode l
    rw [fInvalidate_of_cleared t h2 h1]
  | move p =>
    refine ⟨p, rfl, ?_⟩
    by_cases hsel : t.leftDown = true ∧ t.fInSelectMode = true
    · exfalso
      apply hne
      show (mouseMoveEvent env t p).linkMode l = t.linkMode l
      unfold mouseMoveEvent
      rw [if_pos hsel]
    · rw [move_updates env t p hsel] at hne
      rcases hd : env.findByPos (resolvePos env p) with _ | disp
      · rw [ult_eq_none env t p hd, trackNone_of_none t h1] at hne
        exact absurd rfl hne
      · by_cases he : env.settings.enableLinks = true
        · rcases hL : disp.link with _ | l'
          · rw [ult_eq_same env t p disp hd he (hL.trans h1.symm)] at hne
            exact absurd rfl hne
          · have hl : ¬ disp.link = t.fHoverLink := by
              rw [hL, h1]
              simp
            have hlap : linkAtPos env p = some l' := by
              unfold linkAtPos
              rw [hd]
              dsimp only
              exact hL
            by_cases hxl : l = l'
            · rw [hxl]
              exact hlap
            · exfalso
              apply hne
              have hox : (some l' : Option LinkId) ≠ some l :=
                fun hxe => hxl (Option.some.inj hxe).symm
              by_cases ha : disp.altText ≠ ""
              · rw [ult_eq_alt env t p disp hd he hl ha]
                show (hoverSwap env t disp.link).linkMode l = t.linkMode l
                rw [hL]
                exact hoverSwap_linkMode_other env t (some l') l h1 hox
              · have ha' := not_not.mp ha
                by_cases hc : (env.linkInfo l').clickable = true
                · rw [ult_eq_url env t p disp l' hd he hl ha' hL hc]
                  show (hoverSwap env t disp.link).linkMode l = t.linkMode l
                  rw [hL]
                  exact hoverSwap_linkMode_other env t (some l') l h1 hox
                · rw [ult_eq_clear_some env t p disp l' hd he hl ha' hL hc, hL]
                  rw [trackClear_of_some _ l' (hoverSwap_fHoverLink env t (some l'))]
                  show Function.update (hoverSwap env t (some l')).linkMode l' LinkMode.none l
                    = t.linkMode l
                  rw [Function.update_noteq hxl _ _]
                  exact hoverSwap_linkMode_other env t (some l') l h1 hox
        · exfalso
          apply hne
          rw [ult_eq_disabled env t p disp hd he, trackClear_of_none t h1]

/-- With link following disabled, no reachable state tracks a link and no
link visual mode is ever set. -/
theorem disabled_reachable_clean (env : Env) (he : env.settings.enableLinks = false)
    (s : DW) (h : Reachable env s) :
    AllNone s ∧ s.fHoverLink = none ∧ s.fClickedLink = none := by
  have he' : ¬ env.settings.enableLinks = true := bool_false_ne_true he
  induction h with
  | init => exact ⟨fun _ => rfl, rfl, rfl⟩
  | @step t e hr ih =>
    obtain ⟨hAll, hh, hc⟩ := ih
    cases e with
    | move p =>
      by_cases hsel : t.leftDown = true ∧ t.fInSelectMode = true
      · have hmv : step env t (Ev.move p) =
            { t with selRange := some (env.textOfsByPos t.fSelectOrigin, env.textOfsByPos p) } := by
          show mouseMoveEvent env t p = _
          unfold mouseMoveEvent
          rw [if_pos hsel]
        rw [hmv]
        exact ⟨fun l => hAll l, hh, hc⟩
      · rw [move_updates env t p hsel]
        rcases hd : env.findByPos (resolvePos env p) with _ | disp
        · rw [ult_eq_none env t p hd, trackNone_of_none t hh]
          exact ⟨hAll, hh, hc⟩
        · rw [ult_eq_disabled env t p disp hd he', trackClear_of_none t hh]
          exact ⟨fun l => hAll l, hh, hc⟩
    | press p =>
      by_cases hld : t.leftDown = true
      · have hp : step env t (Ev.press p) = t := by
          show (if t.leftDown then t else { mousePressEvent env t p with leftDown := true }) = t
          rw [if_pos hld]
        rw [hp]
        exact ⟨hAll, hh, hc⟩
      · by_cases hsel2 : t.fInSelectMode = true
        · have hp : step env t (Ev.press p) = { t with leftDown := true } := by
            show (if t.leftDown then t else { mousePressEvent env t p with leftDown := true }) = _
            rw [if_neg hld]
            unfold mousePressEvent
            rw [hh]
            dsimp only
            rw [if_neg (not_not_intro hsel2)]
            all_goals rw [hh]
          rw [hp]
          exact ⟨fun l => hAll l, hh, hc⟩
        · have hp : step env t (Ev.press p) =
              { t with
                fInSelectMode := true, fSelectOrigin := p,
                selRange := some (env.textOfsMax, env.textOfsMax), leftDown := true } := by
            show (if t.leftDown then t else { mousePressEvent env t p with leftDown := true }) = _
            rw [if_neg hld]
            unfold mousePressEvent
            rw [hh]
            dsimp only
            rw [if_pos hsel2]
          rw [hp]
          exact ⟨fun l => hAll l, hh, hc⟩
    | release =>
      by_cases hld : t.leftDown = true
      · by_cases hsel2 : t.fInSelectMode = true
        · have hr2 : step env t Ev.release =
              { t with fInSelectMode := false, leftDown := false } := by
            show (if t.leftDown then { mouseReleaseEvent env t with leftDown := false } else t) = _
            rw [if_pos hld]
            unfold mouseReleaseEvent
            rw [if_pos hsel2]
          rw [hr2]
          exact ⟨fun l => hAll l, hh, hc⟩
        · have hr2 : step env t Ev.release = { t with leftDown := false } := by
            show (if t.leftDown then { mouseReleaseEvent env t with leftDown := false } else t) = _
            rw [if_pos hld]
            unfold mouseReleaseEvent
            rw [if_neg hsel2, hc]
            dsimp only
            rw [hc]
          rw [hr2]
          exact ⟨fun l => hAll l, hh, hc⟩
      · have hr2 : step env t Ev.release = t := by
          show (if t.leftDown then { mouseReleaseEvent env t with leftDown := false } else t) = t
          rw [if_neg hld]
        rw [hr2]
        exact ⟨hAll, hh, hc⟩
    | leave =>
      exact ⟨fInvalidate_allNone t (allNone_modeRef t hAll),
        (fInvalidate_obs t).1, (fInvalidate_obs t).2.1⟩

/-- C1 as stated is false on the code: with highlighting disabled, after a
press and a release on the hovered clickable link the command is
dispatched and the armed reference cleared, but the visual mode is left
at `clicked` instead of being set back to `none`. -/
theorem C1_counterexample :
    (run (testEnv true false) initDW [Ev.move (1, 1), Ev.press (1, 1)]).fClickedLink = some 0 ∧
    (run (testEnv true false) initDW [Ev.move (1, 1), Ev.press (1, 1)]).fHoverLink = some 0 ∧
    (testEnv true false).settings.highlightLinks = false ∧
    (run (testEnv true false) initDW [Ev.move (1, 1), Ev.press (1, 1), Ev.release]).dispatched =
      [{ cmd := "go north", append := false, enter := true }] ∧
    (run (testEnv true false) initDW [Ev.move (1, 1), Ev.press (1, 1), Ev.release]).linkMode 0 =
      LinkMode.clicked := by
  exact ⟨by decide, by decide, by decide, by decide, by decide⟩

/-- C1 (amended): on a primary release while the armed link is identical
to the hovered link, the link's command is dispatched exactly once with
its append flag and its negated noenter flag; with highlighting enabled
its visual mode reverts to `hover`, with highlighting disabled the mode is
left unchanged (it stays `clicked`); the armed reference is cleared. -/
theorem C1_release_on_armed_link (env : Env) (t : DW) (c : LinkId)
    (hld : t.leftDown = true) (hsel : t.fInSelectMode = false)
    (hcl : t.fClickedLink = some c) (hh : t.fHoverLink = some c) :
    (step env t Ev.release).dispatched =
      { cmd := (env.linkInfo c).url, append := (env.linkInfo c).append,
        enter := ¬ (env.linkInfo c).noenter } :: t.dispatched ∧
    (env.settings.highlightLinks = true →
      (step env t Ev.release).linkMode c = LinkMode.hover) ∧
    (env.settings.highlightLinks = false →
      (step env t Ev.release).linkMode c = t.linkMode c) ∧
    (step env t Ev.release).fClickedLink = none := by
  obtain ⟨d1, d2, d3, d4, _, _⟩ := release_hover_armed env t c hld hsel hcl hh
  exact ⟨d1, d2, d3, d4⟩

theorem C1_witness :
    (step (testEnv true true) (run (testEnv true true) initDW [Ev.move (1, 1), Ev.press (1, 1)])
        Ev.release).dispatched = [{ cmd := "go north", append := false, enter := true }] ∧
    (step (testEnv true true) (run (testEnv true true) initDW [Ev.move (1, 1), Ev.press (1, 1)])
        Ev.release).linkMode 0 = LinkMode.hover ∧
    (step (testEnv true true) (run (testEnv true true) initDW [Ev.move (1, 1), Ev.press (1, 1)])
        Ev.release).fClickedLink = none := by
  obtain ⟨d1, d2, _, d4⟩ :=
    C1_release_on_armed_link (testEnv true true)
      (run (testEnv true true) initDW [Ev.move (1, 1), Ev.press (1, 1)]) 0
      (by decide) (by decide) (by decide) (by decide)
  refine ⟨?_, d2 (by decide), d4⟩
  rw [d1]
  decide

/-- C2: in every reachable state at most one link has visual mode
`clicked`, at most one has `hover`, and no link has both at once (each
link carries a single mode). -/
theorem C2_at_most_one_mode (env : Env) (s : DW) (h : Reachable env s) :
    (∀ a b, s.linkMode a = LinkMode.clicked → s.linkMode b = LinkMode.clicked → a = b) ∧
    (∀ a b, s.linkMode a = LinkMode.hover → s.linkMode b = LinkMode.hover → a = b) ∧
    (∀ a, ¬ (s.linkMode a = LinkMode.clicked ∧ s.linkMode a = LinkMode.hover)) := by
  have hM := (ctrlInv_reachable env s h).1
  refine ⟨?_, ?_, ?_⟩
  · intro a b ha hb
    have h1 := hM a (by rw [ha]; exact fun hx => LinkMode.noConfusion hx)
    have h2 := hM b (by rw [hb]; exact fun hx => LinkMode.noConfusion hx)
    exact Option.some.inj (h1.symm.trans h2)
  · intro a b ha hb
    have h1 := hM a (by rw [ha]; exact fun hx => LinkMode.noConfusion hx)
    have h2 := hM b (by rw [hb]; exact fun hx => LinkMode.noConfusion hx)
    exact Option.some.inj (h1.symm.trans h2)
  · intro a hab
    exact LinkMode.noConfusion (hab.1.symm.trans hab.2)

theorem C2_witness :
    (run (testEnv true true) initDW [Ev.move (1, 1), Ev.press (1, 1)]).linkMode 0 =
      LinkMode.clicked ∧
    (run (testEnv true true) initDW [Ev.move (1, 1), Ev.press (1, 1)]).linkMode 1 ≠
      LinkMode.clicked := by
  have hr : Reachable (testEnv true true)
      (run (testEnv true true) initDW [Ev.move (1, 1), Ev.press (1, 1)]) :=
    Reachable.step (Ev.press (1, 1)) (Reachable.step (Ev.move (1, 1)) Reachable.init)
  have h0 : (run (testEnv true true) initDW [Ev.move (1, 1), Ev.press (1, 1)]).linkMode 0 =
      LinkMode.clicked := by decide
  refine ⟨h0, fun h1 => ?_⟩
  exact absurd ((C2_at_most_one_mode (testEnv true true) _ hr).1 0 1 h0 h1) (by decide)

/-- C7: selection mode and link tracking are mutually exclusive in every
reachable state. -/
theorem C7_selection_excludes_links (env : Env) (s : DW) (h : Reachable env s) :
    (s.fInSelectMode = true → s.fHoverLink = none ∧ s.fClickedLink = none) ∧
    (s.fHoverLink ≠ none ∨ s.fClickedLink ≠ none → s.fInSelectMode = false) := by
  have hI := ctrlInv_reachable env s h
  refine ⟨fun hs => ⟨(hI.2.2 hs).1, (hI.2.2 hs).2.1⟩, ?_⟩
  intro hor
  cases hx : s.fInSelectMode
  · rfl
  · rcases hor with h1 | h1
    · exact absurd (hI.2.2 hx).1 h1
    · exact absurd (hI.2.2 hx).2.1 h1

theorem C7_witness :
    (run (testEnv true true) initDW [Ev.press (4, 4)]).fInSelectMode = true ∧
    (run (testEnv true true) initDW [Ev.press (4, 4)]).fHoverLink = none ∧
    (run (testEnv true true) initDW [Ev.press (4, 4)]).fClickedLink = none := by
  have hr : Reachable (testEnv true true) (run (testEnv true true) initDW [Ev.press (4, 4)]) :=
    Reachable.step (Ev.press (4, 4)) Reachable.init
  have h1 : (run (testEnv true true) initDW [Ev.press (4, 4)]).fInSelectMode = true := by decide
  exact ⟨h1, (C7_selection_excludes_links (testEnv true true) _ hr).1 h1⟩

/-- C6: after a leave event both link references are empty, every link's
visual mode has been reverted to `none`, and cursor and status are at
their defaults; a repeated leave is a complete no-op, and an event
arriving after a leave can only change the visual mode of the link the
layout oracle freshly resolves at a move position — stale hover state
cannot be resurrected. -/
theorem C6_leave_invalidation (env : Env) (s : DW) (h : Reachable env s) :
    (step env s Ev.leave).fHoverLink = none ∧
    (step env s Ev.leave).fClickedLink = none ∧
    (∀ l, (step env s Ev.leave).linkMode l = LinkMode.none) ∧
    (step env s Ev.leave).cursor = Cursor.default ∧
    (step env s Ev.leave).status = "" ∧
    step env (step env s Ev.leave) Ev.leave = step env s Ev.leave ∧
    (∀ e l, (step env (step env s Ev.leave) e).linkMode l ≠ (step env s Ev.leave).linkMode l →
      ∃ p, e = Ev.move p ∧ linkAtPos env p = some l) := by
  have hM := (ctrlInv_reachable env s h).1
  obtain ⟨o1, o2, o3, o4, _, _, _, _, _⟩ := fInvalidate_obs s
  have hAll : AllNone (fInvalidateLinkTracking s) := fInvalidate_allNone s hM
  have hidem : step env (step env s Ev.leave) Ev.leave = step env s Ev.leave := by
    show fInvalidateLinkTracking (fInvalidateLinkTracking s) = fInvalidateLinkTracking s
    rw [fInvalidate_of_cleared _ o2 o1]
    exact record_clear_id _ o3 o4
  exact ⟨o1, o2, hAll, o3, o4, hidem,
    fun e l hne => step_fresh_only env (fInvalidateLinkTracking s) o1 o2 e l hne⟩

theorem C6_witness :
    (step (testEnv true true) (run (testEnv true true) initDW [Ev.move (1, 1)])
      Ev.leave).fHoverLink = none ∧
    (step (testEnv true true) (run (testEnv true true) initDW [Ev.move (1, 1)])
      Ev.leave).linkMode 0 = LinkMode.none ∧
    step (testEnv true true)
        (step (testEnv true true) (run (testEnv true true) initDW [Ev.move (1, 1)]) Ev.leave)
        Ev.leave =
      step (testEnv true true) (run (testEnv true true) initDW [Ev.move (1, 1)]) Ev.leave := by
  have hr : Reachable (testEnv true true) (run (testEnv true true) initDW [Ev.move (1, 1)]) :=
    Reachable.step (Ev.move (1, 1)) Reachable.init
  obtain ⟨a1, _, a3, _, _, a6, _⟩ := C6_leave_invalidation (testEnv true true) _ hr
  exact ⟨a1, a3 0, a6⟩

/-- C4: a primary press while no link is hovered and not selecting enters
selection mode anchored at the press position and pushes the empty range
(max, max) to the formatter; every move while selecting with the button
down pushes (offset of origin, offset of position); the release that ends
selection dispatches no command. -/
theorem C4_selection_mode (env : Env) (s : DW) (p q : Pos)
    (hh : s.fHoverLink = none) (hsel : s.fInSelectMode = false) (hld : s.leftDown = false) :
    ((step env s (Ev.press p)).fInSelectMode = true ∧
     (step env s (Ev.press p)).fSelectOrigin = p ∧
     (step env s (Ev.press p)).selRange = some (env.textOfsMax, env.textOfsMax) ∧
     (step env s (Ev.press p)).dispatched = s.dispatched) ∧
    (∀ t : DW, t.fInSelectMode = true → t.leftDown = true →
      (step env t (Ev.move q)).selRange =
        some (env.textOfsByPos t.fSelectOrigin, env.textOfsByPos q) ∧
      (step env t (Ev.move q)).fInSelectMode = true ∧
      (step env t (Ev.move q)).fSelectOrigin = t.fSelectOrigin ∧
      (step env t (Ev.move q)).dispatched = t.dispatched) ∧
    (∀ t : DW, t.fInSelectMode = true → t.leftDown = true →
      (step env t Ev.release).fInSelectMode = false ∧
      (step env t Ev.release).dispatched = t.dispatched) := by
  refine ⟨?_, ?_, ?_⟩
  · have hp : step env s (Ev.press p) =
        { s with
          fInSelectMode := true, fSelectOrigin := p,
          selRange := some (env.textOfsMax, env.textOfsMax), leftDown := true } := by
      show (if s.leftDown then s else { mousePressEvent env s p with leftDown := true }) = _
      rw [if_neg (bool_false_ne_true hld)]
      unfold mousePressEvent
      rw [hh]
      dsimp only
      rw [if_pos (bool_false_ne_true hsel)]
    rw [hp]
    exact ⟨rfl, rfl, rfl, rfl⟩
  · intro t ht1 ht2
    have hm : step env t (Ev.move q) =
        { t with selRange := some (env.textOfsByPos t.fSelectOrigin, env.textOfsByPos q) } := by
      show mouseMoveEvent env t q = _
      unfold mouseMoveEvent
      rw [if_pos ⟨ht2, ht1⟩]
    rw [hm]
    exact ⟨rfl, ht1, rfl, rfl⟩
  · intro t ht1 ht2
    have hrel : step env t Ev.release =
        { t with fInSelectMode := false, leftDown := false } := by
      show (if t.leftDown then { mouseReleaseEvent env t with leftDown := false } else t) = _
      rw [if_pos ht2]
      unfold mouseReleaseEvent
      rw [if_pos ht1]
    rw [hrel]
    exact ⟨rfl, rfl⟩

theorem C4_witness :
    (run (testEnv true true) initDW [Ev.press (4, 4)]).selRange = some (100, 100) ∧
    (run (testEnv true true) initDW [Ev.press (4, 4), Ev.move (2, 2)]).selRange = some (44, 22) ∧
    (run (testEnv true true) initDW
      [Ev.press (4, 4), Ev.move (2, 2), Ev.release]).fInSelectMode = false ∧
    (run (testEnv true true) initDW
      [Ev.press (4, 4), Ev.move (2, 2), Ev.release]).dispatched = [] := by
  obtain ⟨w1, w2, w3⟩ :=
    C4_selection_mode (testEnv true true) initDW (4, 4) (2, 2) (by decide) (by decide) (by decide)
  refine ⟨w1.2.2.1.trans (by decide), ?_, ?_, ?_⟩
  · exact ((w2 (run (testEnv true true) initDW [Ev.press (4, 4)])
      (by decide) (by decide)).1).trans (by decide)
  · exact (w3 (run (testEnv true true) initDW [Ev.press (4, 4), Ev.move (2, 2)])
      (by decide) (by decide)).1
  · exact ((w3 (run (testEnv true true) initDW [Ev.press (4, 4), Ev.move (2, 2)])
      (by decide) (by decide)).2).trans (by decide)

/-- C3 as stated is false on the code: from the idle state, with no hover
reference held, moving onto an object carrying ALT text and no link takes
the early return of `updateLinkTracking` (resolved link and tracked hover
are both null) and the ALT text is not shown. -/
theorem C3_counterexample :
    resolvePos (testEnv true true) (3, 3) = (3, 3) ∧
    (testEnv true true).findByPos (3, 3) = some { altText := "map of the town", link := none } ∧
    (testEnv true true).settings.enableLinks = true ∧
    initDW.fHoverLink = none ∧
    (run (testEnv true true) initDW [Ev.move (3, 3)]).status = "" ∧
    (run (testEnv true true) initDW [Ev.move (3, 3)]).status ≠ "map of the town" := by
  exact ⟨by decide, by decide, by decide, by decide, by decide, by decide⟩

/-- C3 (amended): on a link-tracking refresh over a display object, with
link following enabled, the status feedback behaves as follows.  When the
resolved link equals the tracked hover reference — including the case
where both are absent — the refresh returns early and changes nothing, so
ALT text is not shown.  Otherwise precedence applies: non-empty ALT text
is shown as status (the cursor keeping its previous shape when the object
has no link), else a clickable link's destination is shown, else status is
cleared, the cursor reset to default and the hover reference dropped. -/
theorem C3_status_precedence (env : Env) (s : DW) (p : Pos) (disp : DispObj)
    (hd : env.findByPos (resolvePos env p) = some disp)
    (he : env.settings.enableLinks = true) :
    (disp.link = s.fHoverLink → updateLinkTracking env s p = s) ∧
    (disp.link ≠ s.fHoverLink →
      (disp.altText ≠ "" →
        (updateLinkTracking env s p).status = disp.altText ∧
        (updateLinkTracking env s p).fHoverLink = disp.link ∧
        (disp.link = none → (updateLinkTracking env s p).cursor = s.cursor)) ∧
      (∀ l, disp.altText = "" → disp.link = some l → (env.linkInfo l).clickable = true →
        (updateLinkTracking env s p).status = (env.linkInfo l).url) ∧
      (disp.altText = "" → disp.link = none →
        (updateLinkTracking env s p).status = "" ∧
        (updateLinkTracking env s p).cursor = Cursor.default ∧
        (updateLinkTracking env s p).fHoverLink = none) ∧
      (∀ l, disp.altText = "" → disp.link = some l → (env.linkInfo l).clickable = false →
        (updateLinkTracking env s p).status = "" ∧
        (updateLinkTracking env s p).cursor = Cursor.default ∧
        (updateLinkTracking env s p).fHoverLink = none)) := by
  refine ⟨fun hl => ult_eq_same env s p disp hd he hl, fun hl => ⟨?_, ?_, ?_, ?_⟩⟩
  · intro ha
    rw [ult_eq_alt env s p disp hd he hl ha]
    refine ⟨rfl, hoverSwap_fHoverLink env s disp.link, fun hz => ?_⟩
    show (hoverSwap env s disp.link).cursor = s.cursor
    rw [hz]
    exact hoverSwap_cursor_none env s
  · intro l ha hL hc
    rw [ult_eq_url env s p disp l hd he hl ha hL hc]
  · intro ha hL
    rw [ult_eq_clear_none env s p disp hd he hl ha hL]
    exact ⟨(trackClear_obs _).2.2, (trackClear_obs _).2.1, (trackClear_obs _).1⟩
  · intro l ha hL hc
    rw [ult_eq_clear_some env s p disp l hd he hl ha hL (bool_false_ne_true hc)]
    exact ⟨(trackClear_obs _).2.2, (trackClear_obs _).2.1, (trackClear_obs _).1⟩

theorem C3_witness :
    (updateLinkTracking (testEnv true true) (run (testEnv true true) initDW [Ev.move (1, 1)])
      (3, 3)).status = "map of the town" ∧
    (updateLinkTracking (testEnv true true) (run (testEnv true true) initDW [Ev.move (1, 1)])
      (3, 3)).cursor = (run (testEnv true true) initDW [Ev.move (1, 1)]).cursor := by
  obtain ⟨_, h2⟩ :=
    C3_status_precedence (testEnv true true)
      (run (testEnv true true) initDW [Ev.move (1, 1)]) (3, 3)
      { altText := "map of the town", link := none } (by decide) (by decide)
  obtain ⟨ha, _, _, _⟩ := h2 (by decide)
  obtain ⟨p1, _, p3⟩ := ha (by decide)
  exact ⟨p1, p3 rfl⟩

/-- C9 as stated is false on the code: with link following disabled, a
pointer move over the ALT-text object clears the status bar instead of
showing the ALT text, and the cursor stays default. -/
theorem C9_counterexample :
    (testEnv false true).settings.enableLinks = false ∧
    (testEnv false true).findByPos (3, 3) = some { altText := "map of the town", link := none } ∧
    (run (testEnv false true) initDW [Ev.move (3, 3)]).status = "" ∧
    (run (testEnv false true) initDW [Ev.move (3, 3)]).status ≠ "map of the town" ∧
    (run (testEnv false true) initDW [Ev.move (3, 3)]).cursor = Cursor.default := by
  exact ⟨by decide, by decide, by decide, by decide, by decide⟩

/-- C9 (amended): with link following disabled, hover and click visual
mode changes indeed never occur — no reachable state has a link mode
other than `none` or any link reference — but the ALT-text/cursor path is
suppressed too: a move over any display object clears the status, resets
the cursor and keeps the hover reference empty; ALT text is never shown. -/
theorem C9_disabled_feedback (env : Env) (he : env.settings.enableLinks = false)
    (s : DW) (h : Reachable env s) :
    (∀ l, s.linkMode l = LinkMode.none) ∧
    s.fHoverLink = none ∧ s.fClickedLink = none ∧
    (∀ p disp, env.findByPos (resolvePos env p) = some disp →
      (updateLinkTracking env s p).status = "" ∧
      (updateLinkTracking env s p).cursor = Cursor.default ∧
      (updateLinkTracking env s p).fHoverLink = none) := by
  obtain ⟨hAll, hh, hc⟩ := disabled_reachable_clean env he s h
  refine ⟨hAll, hh, hc, fun p disp hd => ?_⟩
  rw [ult_eq_disabled env s p disp hd (bool_false_ne_true he)]
  exact ⟨(trackClear_obs s).2.2, (trackClear_obs s).2.1, (trackClear_obs s).1⟩

theorem C9_witness :
    (run (testEnv false true) initDW [Ev.move (3, 3)]).fHoverLink = none ∧
    (run (testEnv false true) initDW [Ev.move (3, 3)]).linkMode 0 = LinkMode.none ∧
    (updateLinkTracking (testEnv false true) (run (testEnv false true) initDW [Ev.move (3, 3)])
      (3, 3)).status = "" := by
  have hr : Reachable (testEnv false true) (run (testEnv false true) initDW [Ev.move (3, 3)]) :=
    Reachable.step (Ev.move (3, 3)) Reachable.init
  obtain ⟨w1, w2, _, w4⟩ := C9_disabled_feedback (testEnv false true) (by decide) _ hr
  exact ⟨w2, w1 0, (w4 (3, 3) { altText := "map of the town", link := none } (by decide)).1⟩

/-- C5: press on a hovered clickable link, move off it onto a link-free
object, move onto a second clickable link, then release: no command is
dispatched for either link, the second link's mode becomes `hover`, the
armed reference is cleared after the release, and the first link's mode
stays `none`. -/
theorem C5_drag_off_second_link (env : Env) (s : DW) (a b : LinkId)
    (p1 p2 p3 : Pos) (d2 d3 : DispObj)
    (hh : s.fHoverLink = some a) (hsel : s.fInSelectMode = false) (hld : s.leftDown = false)
    (hca : (env.linkInfo a).clickable = true) (he : env.settings.enableLinks = true)
    (hd2 : env.findByPos (resolvePos env p2) = some d2) (hL2 : d2.link = none)
    (hd3 : env.findByPos (resolvePos env p3) = some d3) (hL3 : d3.link = some b)
    (hcb : (env.linkInfo b).clickable = true) (hab : b ≠ a) :
    (run env s [Ev.press p1, Ev.move p2, Ev.move p3, Ev.release]).dispatched = s.dispatched ∧
    (run env s [Ev.press p1, Ev.move p2, Ev.move p3, Ev.release]).linkMode b = LinkMode.hover ∧
    (run env s [Ev.press p1, Ev.move p2, Ev.move p3, Ev.release]).fClickedLink = none ∧
    (run env s [Ev.press p1, Ev.move p2, Ev.move p3, Ev.release]).linkMode a = LinkMode.none := by
  have e1 : step env s (Ev.press p1) =
      { setClicked s a LinkMode.clicked with fClickedLink := some a, leftDown := true } :=
    press_arms env s a p1 hh hld hca he
  have f1h : (step env s (Ev.press p1)).fHoverLink = some a := by
    rw [e1]
    exact hh
  have f1c : (step env s (Ev.press p1)).fClickedLink = some a := by
    rw [e1]
  have f1s : (step env s (Ev.press p1)).fInSelectMode = false := by
    rw [e1]
    exact hsel
  have f1l : (step env s (Ev.press p1)).leftDown = true := by
    rw [e1]
  have f1d : (step env s (Ev.press p1)).dispatched = s.dispatched := by
    rw [e1]
    rfl
  have hmv2 : step env (step env s (Ev.press p1)) (Ev.move p2) =
      updateLinkTracking env (step env s (Ev.press p1)) p2 :=
    move_updates env _ p2 (fun hx => Bool.noConfusion (f1s.symm.trans hx.2))
  have hl2 : ¬ d2.link = (step env s (Ev.press p1)).fHoverLink := by
    rw [hL2, f1h]
    simp
  have hs2 : ∃ (c2 : Cursor) (st2 : String),
      step env (step env s (Ev.press p1)) (Ev.move p2) =
      { setClicked (step env s (Ev.press p1)) a LinkMode.none with
        fHoverLink := none, cursor := c2, status := st2 } := by
    rw [hmv2]
    by_cases ha2 : d2.altText ≠ ""
    · refine ⟨(step env s (Ev.press p1)).cursor, d2.altText, ?_⟩
      rw [ult_eq_alt env _ p2 d2 hd2 he hl2 ha2, hL2, hoverSwap_none_of_some env _ a f1h]
      rfl
    · refine ⟨Cursor.default, "", ?_⟩
      rw [ult_eq_clear_none env _ p2 d2 hd2 he hl2 (not_not.mp ha2) hL2, hL2,
        hoverSwap_none_of_some env _ a f1h, trackClear_of_none _ rfl]
  obtain ⟨c2, st2, s2eq⟩ := hs2
  have f2h : (step env (step env s (Ev.press p1)) (Ev.move p2)).fHoverLink = none := by
    rw [s2eq]
  have f2c : (step env (step env s (Ev.press p1)) (Ev.move p2)).fClickedLink = some a := by
    rw [s2eq]
    exact f1c
  have f2s : (step env (step env s (Ev.press p1)) (Ev.move p2)).fInSelectMode = false := by
    rw [s2eq]
    exact f1s
  have f2l : (step env (step env s (Ev.press p1)) (Ev.move p2)).leftDown = true := by
    rw [s2eq]
    exact f1l
  have f2d : (step env (step env s (Ev.press p1)) (Ev.move p2)).dispatched = s.dispatched := by
    rw [s2eq]
    exact f1d
  have f2ma : (step env (step env s (Ev.press p1)) (Ev.move p2)).linkMode a = LinkMode.none := by
    rw [s2eq]
    exact Function.update_same _ _ _
  have hmv3 : step env (step env (step env s (Ev.press p1)) (Ev.move p2)) (Ev.move p3) =
      updateLinkTracking env (step env (step env s (Ev.press p1)) (Ev.move p2)) p3 :=
    move_updates env _ p3 (fun hx => Bool.noConfusion (f2s.symm.trans hx.2))
  have hl3 : ¬ d3.link = (step env (step env s (Ev.press p1)) (Ev.move p2)).fHoverLink := by
    rw [hL3, f2h]
    simp
  have e3b : hoverSwap env (step env (step env s (Ev.press p1)) (Ev.move p2)) d3.link =
      { (step env (step env s (Ev.press p1)) (Ev.move p2)) with
        fHoverLink := some b, cursor := Cursor.pointingHand } := by
    rw [hL3]
    exact hoverSwap_clickable_armed env _ b f2h hcb (by rw [f2c]; simp)
  have hs3 : ∃ str, step env (step env (step env s (Ev.press p1)) (Ev.move p2)) (Ev.move p3) =
      { (step env (step env s (Ev.press p1)) (Ev.move p2)) with
        fHoverLink := some b, cursor := Cursor.pointingHand, status := str } := by
    rw [hmv3]
    by_cases ha3 : d3.altText ≠ ""
    · refine ⟨d3.altText, ?_⟩
      rw [ult_eq_alt env _ p3 d3 hd3 he hl3 ha3, e3b]
    · refine ⟨(env.linkInfo b).url, ?_⟩
      rw [ult_eq_url env _ p3 d3 b hd3 he hl3 (not_not.mp ha3) hL3 hcb, e3b]
  obtain ⟨str, s3eq⟩ := hs3
  have f3h : (step env (step env (step env s (Ev.press p1)) (Ev.move p2))
      (Ev.move p3)).fHoverLink = some b := by
    rw [s3eq]
  have f3c : (step env (step env (step env s (Ev.press p1)) (Ev.move p2))
      (Ev.move p3)).fClickedLink = some a := by
    rw [s3eq]
    exact f2c
  have f3s : (step env (step env (step env s (Ev.press p1)) (Ev.move p2))
      (Ev.move p3)).fInSelectMode = false := by
    rw [s3eq]
    exact f2s
  have f3l : (step env (step env (step env s (Ev.press p1)) (Ev.move p2))
      (Ev.move p3)).leftDown = true := by
    rw [s3eq]
    exact f2l
  have f3d : (step env (step env (step env s (Ev.press p1)) (Ev.move p2))
      (Ev.move p3)).dispatched = s.dispatched := by
    rw [s3eq]
    exact f2d
  have f3ma : (step env (step env (step env s (Ev.press p1)) (Ev.move p2))
      (Ev.move p3)).linkMode a = LinkMode.none := by
    rw [s3eq]
    exact f2ma
  have e4 := release_hover_other env
    (step env (step env (step env s (Ev.press p1)) (Ev.move p2)) (Ev.move p3)) a b
    f3l f3s f3c f3h hab
  have hrun : run env s [Ev.press p1, Ev.move p2, Ev.move p3, Ev.release] =
      step env (step env (step env (step env s (Ev.press p1)) (Ev.move p2)) (Ev.move p3))
        Ev.release := rfl
  rw [hrun, e4]
  refine ⟨f3d, ?_, rfl, ?_⟩
  · exact Function.update_same _ _ _
  · have hha : (setClicked (step env (step env (step env s (Ev.press p1)) (Ev.move p2))
        (Ev.move p3)) b LinkMode.hover).linkMode a = LinkMode.none := by
      unfold setClicked
      dsimp only
      rw [Function.update_noteq (fun hx => hab hx.symm) _ _]
      exact f3ma
    exact hha

theorem C5_witness :
    (run (testEnv true true) (run (testEnv true true) initDW [Ev.move (1, 1)])
      [Ev.press (1, 1), Ev.move (4, 4), Ev.move (2, 2), Ev.release]).dispatched =
      (run (testEnv true true) initDW [Ev.move (1, 1)]).dispatched ∧
    (run (testEnv true true) (run (testEnv true true) initDW [Ev.move (1, 1)])
      [Ev.press (1, 1), Ev.move (4, 4), Ev.move (2, 2), Ev.release]).linkMode 1 =
      LinkMode.hover ∧
    (run (testEnv true true) (run (testEnv true true) initDW [Ev.move (1, 1)])
      [Ev.press (1, 1), Ev.move (4, 4), Ev.move (2, 2), Ev.release]).fClickedLink = none := by
  obtain ⟨w1, w2, w3, _⟩ :=
    C5_drag_off_second_link (testEnv true true) (run (testEnv true true) initDW [Ev.move (1, 1)])
      0 1 (1, 1) (4, 4) (2, 2) { altText := "", link := none } { altText := "", link := some 1 }
      (by decide) (by decide) (by decide) (by decide) (by decide) (by decide) (by decide)
      (by decide) (by decide) (by decide) (by decide)
  exact ⟨w1, w2, w3⟩

/-- C10: while a link is armed, moves keep re-querying the layout: moving
off the armed link reverts its visual mode to `none` while the armed
reference is still held; moving back onto it restores the pointing-hand
cursor and the hover reference but restores no highlight (highlighting is
suppressed while a link is click-tracked); a release at that point still
dispatches the armed link's command. -/
theorem C10_armed_retrack (env : Env) (s : DW) (a : LinkId)
    (p1 p2 : Pos) (d1 d2 : DispObj)
    (hh : s.fHoverLink = some a) (hsel : s.fInSelectMode = false) (hld : s.leftDown = false)
    (hca : (env.linkInfo a).clickable = true) (he : env.settings.enableLinks = true)
    (hd1 : env.findByPos (resolvePos env p1) = some d1) (hL1 : d1.link = some a)
    (hd2 : env.findByPos (resolvePos env p2) = some d2) (hL2 : d2.link = none) :
    (run env s [Ev.press p1, Ev.move p2]).linkMode a = LinkMode.none ∧
    (run env s [Ev.press p1, Ev.move p2]).fClickedLink = some a ∧
    (run env s [Ev.press p1, Ev.move p2, Ev.move p1]).cursor = Cursor.pointingHand ∧
    (run env s [Ev.press p1, Ev.move p2, Ev.move p1]).fHoverLink = some a ∧
    (run env s [Ev.press p1, Ev.move p2, Ev.move p1]).linkMode a = LinkMode.none ∧
    (run env s [Ev.press p1, Ev.move p2, Ev.move p1, Ev.release]).dispatched =
      { cmd := (env.linkInfo a).url, append := (env.linkInfo a).append,
        enter := ¬ (env.linkInfo a).noenter } :: s.dispatched := by
  have e1 : step env s (Ev.press p1) =
      { setClicked s a LinkMode.clicked with fClickedLink := some a, leftDown := true } :=
    press_arms env s a p1 hh hld hca he
  have f1h : (step env s (Ev.press p1)).fHoverLink = some a := by
    rw [e1]
    exact hh
  have f1c : (step env s (Ev.press p1)).fClickedLink = some a := by
    rw [e1]
  have f1s : (step env s (Ev.press p1)).fInSelectMode = false := by
    rw [e1]
    exact hsel
  have f1l : (step env s (Ev.press p1)).leftDown = true := by
    rw [e1]
  have f1d : (step env s (Ev.press p1)).dispatched = s.dispatched := by
    rw [e1]
    rfl
  have hmv2 : step env (step env s (Ev.press p1)) (Ev.move p2) =
      updateLinkTracking env (step env s (Ev.press p1)) p2 :=
    move_updates env _ p2 (fun hx => Bool.noConfusion (f1s.symm.trans hx.2))
  have hl2 : ¬ d2.link = (step env s (Ev.press p1)).fHoverLink := by
    rw [hL2, f1h]
    simp
  have hs2 : ∃ (c2 : Cursor) (st2 : String),
      step env (step env s (Ev.press p1)) (Ev.move p2) =
      { setClicked (step env s (Ev.press p1)) a LinkMode.none with
        fHoverLink := none, cursor := c2, status := st2 } := by
    rw [hmv2]
    by_cases ha2 : d2.altText ≠ ""
    · refine ⟨(step env s (Ev.press p1)).cursor, d2.altText, ?_⟩
      rw [ult_eq_alt env _ p2 d2 hd2 he hl2 ha2, hL2, hoverSwap_none_of_some env _ a f1h]
      rfl
    · refine ⟨Cursor.default, "", ?_⟩
      rw [ult_eq_clear_none env _ p2 d2 hd2 he hl2 (not_not.mp ha2) hL2, hL2,
        hoverSwap_none_of_some env _ a f1h, trackClear_of_none _ rfl]
  obtain ⟨c2, st2, s2eq⟩ := hs2
  have f2h : (step env (step env s (Ev.press p1)) (Ev.move p2)).fHoverLink = none := by
    rw [s2eq]
  have f2c : (step env (step env s (Ev.press p1)) (Ev.move p2)).fClickedLink = some a := by
    rw [s2eq]
    exact f1c
  have f2s : (step env (step env s (Ev.press p1)) (Ev.move p2)).fInSelectMode = false := by
    rw [s2eq]
    exact f1s
  have f2l : (step env (step env s (Ev.press p1)) (Ev.move p2)).leftDown = true := by
    rw [s2eq]
    exact f1l
  have f2d : (step env (step env s (Ev.press p1)) (Ev.move p2)).dispatched = s.dispatched := by
    rw [s2eq]
    exact f1d
  have f2ma : (step env (step env s (Ev.press p1)) (Ev.move p2)).linkMode a = LinkMode.none := by
    rw [s2eq]
    exact Function.update_same _ _ _
  have hmv3 : step env (step env (step env s (Ev.press p1)) (Ev.move p2)) (Ev.move p1) =
      updateLinkTracking env (step env (step env s (Ev.press p1)) (Ev.move p2)) p1 :=
    move_updates env _ p1 (fun hx => Bool.noConfusion (f2s.symm.trans hx.2))
  have hl3 : ¬ d1.link = (step env (step env s (Ev.press p1)) (Ev.move p2)).fHoverLink := by
    rw [hL1, f2h]
    simp
  have e3b : hoverSwap env (step env (step env s (Ev.press p1)) (Ev.move p2)) d1.link =
      { (step env (step env s (Ev.press p1)) (Ev.move p2)) with
        fHoverLink := some a, cursor := Cursor.pointingHand } := by
    rw [hL1]
    exact hoverSwap_clickable_armed env _ a f2h hca (by rw [f2c]; simp)
  have hs3 : ∃ str, step env (step env (step env s (Ev.press p1)) (Ev.move p2)) (Ev.move p1) =
      { (step env (step env s (Ev.press p1)) (Ev.move p2)) with
        fHoverLink := some a, cursor := Cursor.pointingHand, status := str } := by
    rw [hmv3]
    by_cases ha3 : d1.altText ≠ ""
    · refine ⟨d1.altText, ?_⟩
      rw [ult_eq_alt env _ p1 d1 hd1 he hl3 ha3, e3b]
    · refine ⟨(env.linkInfo a).url, ?_⟩
      rw [ult_eq_url env _ p1 d1 a hd1 he hl3 (not_not.mp ha3) hL1 hca, e3b]
  obtain ⟨str, s3eq⟩ := hs3
  have f3h : (step env (step env (step env s (Ev.press p1)) (Ev.move p2))
      (Ev.move p1)).fHoverLink = some a := by
    rw [s3eq]
  have f3cur : (step env (step env (step env s (Ev.press p1)) (Ev.move p2))
      (Ev.move p1)).cursor = Cursor.pointingHand := by
    rw [s3eq]
  have f3c : (step env (step env (step env s (Ev.press p1)) (Ev.move p2))
      (Ev.move p1)).fClickedLink = some a := by
    rw [s3eq]
    exact f2c
  have f3s : (step env (step env (step env s (Ev.press p1)) (Ev.move p2))
      (Ev.move p1)).fInSelectMode = false := by
    rw [s3eq]
    exact f2s
  have f3l : (step env (step env (step env s (Ev.press p1)) (Ev.move p2))
      (Ev.move p1)).leftDown = true := by
    rw [s3eq]
    exact f2l
  have f3d : (step env (step env (step env s (Ev.press p1)) (Ev.move p2))
      (Ev.move p1)).dispatched = s.dispatched := by
    rw [s3eq]
    exact f2d
  have f3ma : (step env (step env (step env s (Ev.press p1)) (Ev.move p2))
      (Ev.move p1)).linkMode a = LinkMode.none := by
    rw [s3eq]
    exact f2ma
  have hd6 := (release_hover_armed env
    (step env (step env (step env s (Ev.press p1)) (Ev.move p2)) (Ev.move p1)) a
    f3l f3s f3c f3h).1
  exact ⟨f2ma, f2c, f3cur, f3h, f3ma, hd6.trans (by rw [f3d])⟩

theorem C10_witness :
    (run (testEnv true true) (run (testEnv true true) initDW [Ev.move (1, 1)])
      [Ev.press (1, 1), Ev.move (4, 4)]).linkMode 0 = LinkMode.none ∧
    (run (testEnv true true) (run (testEnv true true) initDW [Ev.move (1, 1)])
      [Ev.press (1, 1), Ev.move (4, 4), Ev.move (1, 1)]).cursor = Cursor.pointingHand ∧
    (run (testEnv true true) (run (testEnv true true) initDW [Ev.move (1, 1)])
      [Ev.press (1, 1), Ev.move (4, 4), Ev.move (1, 1), Ev.release]).dispatched =
      [{ cmd := "go north", append := false, enter := true }] := by
  obtain ⟨w1, _, w3, _, _, w6⟩ :=
    C10_armed_retrack (testEnv true true) (run (testEnv true true) initDW [Ev.move (1, 1)])
      0 (1, 1) (4, 4) { altText := "", link := some 0 } { altText := "", link := none }
      (by decide) (by decide) (by decide) (by decide) (by decide) (by decide) (by decide)
      (by decide) (by decide)
  exact ⟨w1, w3, w6.trans (by decide)⟩
